import Mathlib

/-!
Verification of the SubtitleX batched-translation pipeline.

Shallow embedding of the Python sources of this repository:

* `bilingual_srt_translator.py` — `SRTTranslator.translate_batch`,
  `SRTTranslator.translate_subtitles`, `SRTTranslator._parse_translation`,
  `SRTTranslator._align_translations`, `SRTProcessor.parse_srt`;
* `subtitle_corrector.py` — `parse_srt`, `parse_time`, `correct_subtitle`,
  `process_srt`, `validate_srt_format`, `update_srt_with_edits`;
* `test_bilingual_srt_translator.py` — `split_text_into_chunks`,
  `translate_subtitle_chunk`;
* `[batch]test_bilingual_srt_translator.py` — `translate_subtitle`.

Modelling conventions:

* Python strings are `String` / `List Char`; `len`, slicing and `split`
  agree with Python on the code-point level.
* Python floats produced by `parse_time` are modelled as `ℚ` (the values
  involved are small decimal fractions, where float and rational arithmetic
  agree for the orderings considered).
* A raised Python exception is `Except.error`; remote LLM calls are
  nondeterministic and are modelled as explicit oracle functions from the
  attempt / batch index and the request text to `Except Unit String`.
* `time.sleep` calls are recorded in an explicit trace of delays, and
  progress-callback invocations in a trace of reported fractions.
-/

/-! ### Python string primitives -/

/-- Python whitespace (`str.strip`, regex `\s`) on the ASCII range; the
Unicode-only space characters do not occur in the inputs considered. -/
def pyIsSpace (c : Char) : Bool :=
  c = ' ' || c = '\t' || c = '\n' || c = '\r' || c = '\x0b' || c = '\x0c'

/-- Python `str.strip()`. -/
def pyStrip (cs : List Char) : List Char :=
  ((cs.dropWhile pyIsSpace).reverse.dropWhile pyIsSpace).reverse

/-- Python `str.strip()` on `String`. -/
def strStrip (s : String) : String := ⟨pyStrip s.data⟩

/-- Python `str.startswith`. -/
def strStartsWith (s pre : String) : Bool := pre.data.isPrefixOf s.data

/-- Python `str.replace(old, new)` for non-empty `old`: leftmost,
non-overlapping occurrences.  `fuel ≥ cs.length` makes the fuel argument
irrelevant (each step consumes at least one character). -/
def pyReplaceF (old new : List Char) : Nat → List Char → List Char
  | _, [] => []
  | 0, cs => cs
  | fuel+1, c :: cs =>
    if old.isPrefixOf (c :: cs) ∧ old ≠ [] then
      new ++ pyReplaceF old new fuel (List.drop (old.length - 1) cs)
    else
      c :: pyReplaceF old new fuel cs

/-- Python `s.replace(old, new)` on `String`. -/
def pyReplace (s old new : String) : String :=
  ⟨pyReplaceF old.data new.data s.data.length s.data⟩

/-- Python `str.replace(a, b)` for single characters (a special case of
`str.replace` that is convenient to reason about). -/
def pyReplaceChar (a b : Char) (cs : List Char) : List Char :=
  cs.map fun c => if c = a then b else c

/-- Python `str.split(c)` for a single-character separator. -/
def splitOnChar (c : Char) : List Char → List (List Char)
  | [] => [[]]
  | x :: xs =>
    match splitOnChar c xs with
    | [] => [[]]
    | r :: rs => if x = c then [] :: r :: rs else (x :: r) :: rs

/-- Python `str.split(sep)` for a non-empty separator, with fuel
(`fuel ≥ cs.length` suffices). -/
def pySplitF (sep : List Char) : Nat → List Char → List (List Char)
  | _, [] => [[]]
  | 0, cs => [cs]
  | fuel+1, c :: cs =>
    if sep.isPrefixOf (c :: cs) ∧ sep ≠ [] then
      [] :: pySplitF sep fuel (List.drop (sep.length - 1) cs)
    else
      match pySplitF sep fuel cs with
      | [] => [[c]]
      | r :: rs => (c :: r) :: rs

/-- Python `s.split(sep)` on `String`. -/
def pySplit (s sep : String) : List String :=
  (pySplitF sep.data s.data.length s.data).map String.mk

/-- Python `dict` with string keys and values, as an association list:
assignment keeps the first-insertion position of a key and overwrites its
value; lookup returns the stored value. -/
def pyDictSet (d : List (String × String)) (k v : String) : List (String × String) :=
  match d with
  | [] => [(k, v)]
  | (k', v') :: rest => if k' = k then (k, v) :: rest else (k', v') :: pyDictSet rest k v

/-- Python `dict` lookup (`d[k]` / `d.get(k)`). -/
def pyDictGet (d : List (String × String)) (k : String) : Option String :=
  match d with
  | [] => none
  | (k', v) :: rest => if k' = k then some v else pyDictGet rest k

/-- A three-entry Python `dict` display. -/
def pyDict3 (k1 v1 k2 v2 k3 v3 : String) : List (String × String) :=
  pyDictSet (pyDictSet (pyDictSet [] k1 v1) k2 v2) k3 v3

/-- Digits value of an all-digit, non-empty character list; `none` otherwise. -/
def pyDigitsVal (ds : List Char) : Option Nat :=
  if ds ≠ [] ∧ ds.all Char.isDigit then
    some (ds.foldl (fun a c => 10 * a + (c.toNat - 48)) 0)
  else none

/-- Helper for `pyInt`: conversion of the digit part. -/
def exceptOfDigits (ds : List Char) : Except Unit Int :=
  match pyDigitsVal ds with
  | some n => .ok (n : Int)
  | none => .error ()

/-- Python `int(s)` on the strings the pipeline can feed it: strips
whitespace, accepts an optional sign followed by decimal digits, raises
(`Except.error`) otherwise. -/
def pyInt (cs : List Char) : Except Unit Int :=
  match pyStrip cs with
  | [] => .error ()
  | c :: rest =>
    if c = '+' then exceptOfDigits rest
    else if c = '-' then
      match exceptOfDigits rest with
      | .ok n => .ok (-n)
      | .error e => .error e
    else exceptOfDigits (c :: rest)

/-- Whether an `Except` value is a normal return. -/
def isOkE {ε α : Type} : Except ε α → Bool
  | .ok _ => true
  | .error _ => false

instance {ε α : Type} [DecidableEq ε] [DecidableEq α] : DecidableEq (Except ε α) := fun x y =>
  match x, y with
  | .ok a, .ok b =>
    if h : a = b then isTrue (by rw [h]) else isFalse (by intro he; cases he; exact h rfl)
  | .error a, .error b =>
    if h : a = b then isTrue (by rw [h]) else isFalse (by intro he; cases he; exact h rfl)
  | .ok _, .error _ => isFalse (by intro he; cases he)
  | .error _, .ok _ => isFalse (by intro he; cases he)

/-! ### Chunker — `split_text_into_chunks` (`test_bilingual_srt_translator.py`) -/

/-- The greedy accumulation loop of `split_text_into_chunks`
(`test_bilingual_srt_translator.py` lines 59–78) on the block list, before
each chunk is joined back with `"\n\n"`: while the running size (sum of block
lengths, separators not counted) plus the next block would exceed the limit
and the current chunk is non-empty, the current chunk is closed and the block
starts a new one; otherwise the block is appended. -/
def chunkLoop (limit : Nat) : List String → List String → Nat → List (List String)
  | [], cur, _ => if cur.isEmpty then [] else [cur]
  | b :: rest, cur, size =>
    if size + b.length > limit ∧ ¬ cur.isEmpty then
      cur :: chunkLoop limit rest [b] b.length
    else
      chunkLoop limit rest (cur ++ [b]) (size + b.length)

/-- The record blocks of the input text: `text.strip().split('\n\n')`. -/
def srtBlocks (text : String) : List String := pySplit (strStrip text) "\n\n"

/-- `split_text_into_chunks(text, max_chunk_size)` from
`test_bilingual_srt_translator.py`. -/
def split_text_into_chunks (text : String) (max_chunk_size : Nat) : List String :=
  (chunkLoop max_chunk_size (srtBlocks text) [] 0).map (String.intercalate "\n\n")

/-- Total length of the records of a chunk (separators not counted). -/
def sumLens (chunk : List String) : Nat := (chunk.map String.length).sum


/-! ### SubtitleCodec — `SRTProcessor.parse_srt` (`bilingual_srt_translator.py`)

The block pattern is
`(\d+)\n(\d{2}:\d{2}:\d{2},\d{3}\s*-->\s*\d{2}:\d{2}:\d{2},\d{3})\n((?:(?!\n\d+\n).)+)`
with `re.DOTALL`, scanned by `re.findall`.  The scanner below is the
backtracking semantics of this particular pattern specialised to a
deterministic function: the `\d+` run, the `\s*` runs and the text group are
committed because no shorter choice can ever satisfy the following literal
(digits are not `\n`; whitespace is neither `-` nor a digit), so the regex
engine never revisits them. -/

namespace SRTProcessor

/-- The negative lookahead `(?!\n\d+\n)` of the text group: true when the
remaining input starts a new numbered block. -/
def nextBlockAhead (cs : List Char) : Bool :=
  match cs with
  | '\n' :: rest =>
    let ds := rest.takeWhile Char.isDigit
    !ds.isEmpty && ((rest.drop ds.length).head? == some '\n')
  | _ => false

/-- The text group `((?:(?!\n\d+\n).)+)` under `re.DOTALL`: greedily consume
characters while the lookahead fails (nothing follows it in the pattern, so
the greedy choice is final); returns the consumed text and the rest. -/
def takeSubText : List Char → List Char × List Char
  | [] => ([], [])
  | c :: cs =>
    if nextBlockAhead (c :: cs) then ([], c :: cs)
    else
      let (t, r) := takeSubText cs
      (c :: t, r)

/-- Consume exactly `n` decimal digits. -/
def takeDigitsN : Nat → List Char → Option (List Char × List Char)
  | 0, cs => some ([], cs)
  | _+1, [] => none
  | n+1, c :: cs =>
    if c.isDigit then
      match takeDigitsN n cs with
      | some (ds, r) => some (c :: ds, r)
      | none => none
    else none

/-- Consume one expected literal character. -/
def expectChar (c : Char) : List Char → Option (List Char)
  | [] => none
  | x :: xs => if x = c then some xs else none

/-- One `\d{2}:\d{2}:\d{2},\d{3}` timestamp. -/
def takeHMSm (cs : List Char) : Option (List Char × List Char) := do
  let (d1, r1) ← takeDigitsN 2 cs
  let r2 ← expectChar ':' r1
  let (d2, r3) ← takeDigitsN 2 r2
  let r4 ← expectChar ':' r3
  let (d3, r5) ← takeDigitsN 2 r4
  let r6 ← expectChar ',' r5
  let (d4, r7) ← takeDigitsN 3 r6
  return (d1 ++ ':' :: d2 ++ ':' :: d3 ++ ',' :: d4, r7)

/-- The captured timestamp group
`\d{2}:\d{2}:\d{2},\d{3}\s*-->\s*\d{2}:\d{2}:\d{2},\d{3}`. -/
def takeTsGroup (cs : List Char) : Option (List Char × List Char) := do
  let (t1, r1) ← takeHMSm cs
  let w1 := r1.takeWhile pyIsSpace
  let r2 := r1.drop w1.length
  let r3 ← expectChar '-' r2
  let r4 ← expectChar '-' r3
  let r5 ← expectChar '>' r4
  let w2 := r5.takeWhile pyIsSpace
  let r6 := r5.drop w2.length
  let (t2, r7) ← takeHMSm r6
  return (t1 ++ w1 ++ '-' :: '-' :: '>' :: w2 ++ t2, r7)

/-- One attempted match of the whole block pattern at the current position;
returns the three captured groups and the remaining input. -/
def bMatchAt (cs : List Char) : Option ((String × String × String) × List Char) := do
  let ds := cs.takeWhile Char.isDigit
  if ds.isEmpty then none else
  let r1 ← expectChar '\n' (cs.drop ds.length)
  let (ts, r2) ← takeTsGroup r1
  let r3 ← expectChar '\n' r2
  let (txt, r4) := takeSubText r3
  if txt.isEmpty then none
  else return ((String.mk ds, String.mk ts, String.mk txt), r4)

/-- The `re.findall` scan: attempt a match at every position from left to
right, non-overlapping; on failure advance one character.  Any
`fuel ≥ cs.length + 1` gives the same result, since every match consumes at
least one character. -/
def bFindAll : Nat → List Char → List (String × String × String)
  | 0, _ => []
  | _, [] => []
  | fuel+1, c :: cs =>
    match bMatchAt (c :: cs) with
    | some (m, rest) => m :: bFindAll fuel rest
    | none => bFindAll fuel cs

/-- The match list of `SRTProcessor.parse_srt` after its normalization
(`content.replace('\r\n', '\n').strip()`). -/
def srtMatches (content : String) : List (String × String × String) :=
  let c := strStrip (pyReplace content "\r\n" "\n")
  bFindAll (c.data.length + 1) c.data

/-- The `ValueError` message of `SRTProcessor.parse_srt`. -/
def parseErrMsg : String :=
  "Unable to parse SRT file. Please ensure the file format is correct."

/-- `SRTProcessor.parse_srt` (lines 137–149): raises `ValueError` iff no block
matched, otherwise returns the match list. -/
def parse_srt (content : String) : Except String (List (String × String × String)) :=
  let ms := srtMatches content
  if ms.isEmpty then .error parseErrMsg else .ok ms

end SRTProcessor

/-! ### SRTTranslator (`bilingual_srt_translator.py`)

The remote completion is an oracle `call : Nat → String → Except Unit String`
from the attempt index and the combined request text to the (nondeterministic)
response content or a raised exception; at the pipeline level the oracle also
receives the batch index. -/

namespace SRTTranslator

/-- tenacity `@retry(..., stop=stop_after_attempt(3))` around one body call:
attempts 0, 1, 2; the first normal return wins, and the third failure
surfaces to the caller.  (`wait_random_exponential(min=1, max=60)` sleeps
between attempts are randomized and not modelled.) -/
def retryStop3 {α : Type} (body : Nat → Except Unit α) : Except Unit α :=
  match body 0 with
  | .ok v => .ok v
  | .error _ =>
    match body 1 with
    | .ok v => .ok v
    | .error _ => body 2

/-- `translate_batch` (lines 42–60): joins the batch texts with blank lines,
calls the model, and returns the stripped response content; an exception from
the call is logged and re-raised, which tenacity retries up to 3 attempts. -/
def translate_batch (call : Nat → String → Except Unit String)
    (texts : List String) : Except Unit String :=
  let combined_texts := String.intercalate "\n\n" texts
  retryStop3 fun attempt => (call attempt combined_texts).map strStrip

/-- A fresh `_parse_translation` item: `{'original': '', lang1: '', lang2: ''}`. -/
def freshItem (l1 l2 : String) : List (String × String) :=
  pyDict3 "original" "" l1 "" l2 ""

/-- Truthiness of `current_item['original'] or current_item[lang1] or
current_item[lang2]` (non-empty string is truthy). -/
def itemTruthy (d : List (String × String)) (l1 l2 : String) : Bool :=
  ((pyDictGet d "original").getD "" != "") || ((pyDictGet d l1).getD "" != "") ||
    ((pyDictGet d l2).getD "" != "")

/-- The line loop of `_parse_translation` (lines 113–124), including the
final flush of a truthy `current_item`. -/
def parseTransLoop (l1 l2 : String) :
    List String → List (String × String) → List (List (String × String))
  | [], current => if itemTruthy current l1 l2 then [current] else []
  | line :: rest, current =>
    if strStartsWith line "Original:" then
      let emitted := if itemTruthy current l1 l2 then [current] else []
      let base := if itemTruthy current l1 l2 then freshItem l1 l2 else current
      emitted ++ parseTransLoop l1 l2 rest
        (pyDictSet base "original" (strStrip (pyReplace line "Original:" "")))
    else if strStartsWith line (l1 ++ ":") then
      parseTransLoop l1 l2 rest
        (pyDictSet current l1 (strStrip (pyReplace line (l1 ++ ":") "")))
    else if strStartsWith line (l2 ++ ":") then
      parseTransLoop l1 l2 rest
        (pyDictSet current l2 (strStrip (pyReplace line (l2 ++ ":") "")))
    else
      parseTransLoop l1 l2 rest current

/-- `_parse_translation` (lines 110–125). -/
def parse_translation (translation l1 l2 : String) : List (List (String × String)) :=
  parseTransLoop l1 l2 (pySplit (strStrip translation) "\n") (freshItem l1 l2)

/-- The fallback item of `_align_translations` (line 133) — note the literal
keys `'target_lang1'`/`'target_lang2'` of the source. -/
def alignFallback (o : String × String × String) : List (String × String) :=
  pyDict3 "original" o.2.2 "target_lang1" "[Translation Error]"
    "target_lang2" "[Translation Error]"

/-- `_align_translations` (lines 127–134): zips the originals against the
translations padded with `None` (Python `zip` truncates the longer side), and
replaces falsy entries by the fallback item. -/
def align_translations (translations : List (List (String × String)))
    (originals : List (String × String × String)) : List (List (String × String)) :=
  (originals.zip (translations.map some ++
      List.replicate (originals.length - translations.length) none)).map
    fun ot =>
      match ot.2 with
      | some d => if d.isEmpty then alignFallback ot.1 else d
      | none => alignFallback ot.1

/-- The per-record error item of the batch-failure branch (line 104):
`{'original': e, lang1: e, lang2: e}` with `e = '[Translation Error]'`. -/
def errorItem (l1 l2 : String) : List (String × String) :=
  pyDict3 "original" "[Translation Error]" l1 "[Translation Error]"
    l2 "[Translation Error]"

/-- `subtitles[i:i+BATCH_SIZE]` slices for `i in range(0, total, BATCH_SIZE)`
with `BATCH_SIZE = 20`. -/
def batches20 {α : Type} : List α → List (List α)
  | [] => []
  | x :: xs => ((x :: xs).take 20) :: batches20 ((x :: xs).drop 20)
termination_by l => l.length
decreasing_by simp; omega

/-- The progress fraction reported after batch `bi`:
`min((i + BATCH_SIZE) / total, 1.0)` with `i = 20 * bi`. -/
def progAt (total bi : Nat) : ℚ := min ((20 * (bi : ℚ) + 20) / (total : ℚ)) 1

/-- The batch loop of `translate_subtitles` (lines 85–106): per batch, call
`translate_batch`; on success parse the response, re-align when the parsed
count mismatches, extend the results and report progress; on a raised
exception extend with per-record error items and continue with the next
batch.  Returns the result list and the trace of progress-callback values. -/
def translateLoop (l1 l2 : String) (call : Nat → Nat → String → Except Unit String)
    (total : Nat) : Nat → List (List (String × String × String)) →
      List (List (String × String)) × List ℚ
  | _, [] => ([], [])
  | bi, batch :: rest =>
    match translate_batch (call bi) (batch.map fun s => s.2.2) with
    | .ok translation =>
      let parsed := parse_translation translation l1 l2
      let parsed2 :=
        if parsed.length ≠ batch.length then align_translations parsed batch else parsed
      (parsed2 ++ (translateLoop l1 l2 call total (bi + 1) rest).1,
        progAt total bi :: (translateLoop l1 l2 call total (bi + 1) rest).2)
    | .error _ =>
      (batch.map (fun _ => errorItem l1 l2) ++ (translateLoop l1 l2 call total (bi + 1) rest).1,
        (translateLoop l1 l2 call total (bi + 1) rest).2)

/-- `translate_subtitles` (lines 78–108). -/
def translate_subtitles (subtitles : List (String × String × String)) (l1 l2 : String)
    (call : Nat → Nat → String → Except Unit String) :
    List (List (String × String)) × List ℚ :=
  translateLoop l1 l2 call subtitles.length 0 (batches20 subtitles)

/-- The always-throwing client: every call raises. -/
def failCall : Nat → Nat → String → Except Unit String := fun _ _ _ => .error ()

end SRTTranslator

/-! ### subtitle_corrector.py

The block pattern of `parse_srt` is
`(\d+)\s*\n([0-9:,\.]+)\s*-->\s*([0-9:,\.]+)\s*\n(.*?)\n\s*\n` with
`re.DOTALL`, scanned by `re.findall`.  The digit run, the two timestamp-class
runs and the whitespace runs before `-->` are committed (no shorter choice can
satisfy the next literal), while each `\s*\n` may match at any newline of the
following whitespace run — the scanner tries these greedily (last newline
first) with full backtracking, and the lazy `(.*?)\n\s*\n` tail takes the
shortest content followed by a blank line, exactly as the regex engine does. -/

namespace SubtitleCorrector

/-- A parsed subtitle tuple `(index, start, end, content)`. -/
abbrev Sub4 := String × String × String × String

/-- The candidate remainders of a greedy `\s*\n` at the current position, in
the order the engine tries them: consume `j` whitespace characters and one
newline, for every newline position `j` of the maximal whitespace run,
largest first. -/
def wsNlSuffixes (cs : List Char) : List (List Char) :=
  let run := cs.takeWhile pyIsSpace
  (((List.range run.length).filter fun j => run.get? j == some '\n').reverse).map
    fun j => cs.drop (j + 1)

/-- The character class `[0-9:,\.]`. -/
def isTimeCls (c : Char) : Bool := c.isDigit || c = ':' || c = ',' || c = '.'

/-- The lazy tail `(.*?)\n\s*\n` under `re.DOTALL`: the shortest content
followed by a newline and a whitespace run containing another newline; the
trailing `\s*\n` is greedy (nothing follows it in the pattern), consuming
through the last newline of the run.  Returns content and rest. -/
def takeLazyTail : List Char → Option (List Char × List Char)
  | [] => none
  | c :: cs =>
    if c = '\n' ∧ (cs.takeWhile pyIsSpace).contains '\n' then
      let run := cs.takeWhile pyIsSpace
      some ([], cs.drop (run.length - ((run.reverse.takeWhile fun x => x ≠ '\n').length)))
    else
      match takeLazyTail cs with
      | some (t, r) => some (c :: t, r)
      | none => none

/-- One attempted match of the corrector block pattern at the current
position, with the backtracking described above; returns the four captured
groups and the remaining input. -/
def corrMatchAt (cs : List Char) : Option (Sub4 × List Char) :=
  let ds := cs.takeWhile Char.isDigit
  if ds.isEmpty then none
  else
    (wsNlSuffixes (cs.drop ds.length)).findSome? fun r2 =>
      let t1 := r2.takeWhile isTimeCls
      if t1.isEmpty then none
      else
        let r3 := r2.drop t1.length
        let r4 := r3.drop (r3.takeWhile pyIsSpace).length
        match r4 with
        | '-' :: '-' :: '>' :: r5 =>
          let r6 := r5.drop (r5.takeWhile pyIsSpace).length
          let t2 := r6.takeWhile isTimeCls
          if t2.isEmpty then none
          else
            (wsNlSuffixes (r6.drop t2.length)).findSome? fun r7 =>
              match takeLazyTail r7 with
              | some (content, rest) =>
                some ((String.mk ds, String.mk t1, String.mk t2, String.mk content), rest)
              | none => none
        | _ => none

/-- The `re.findall` scan for the corrector pattern (fuel-irrelevant for
`fuel ≥ cs.length + 1`). -/
def corrFindAll : Nat → List Char → List Sub4
  | 0, _ => []
  | _, [] => []
  | fuel+1, c :: cs =>
    match corrMatchAt (c :: cs) with
    | some (m, rest) => m :: corrFindAll fuel rest
    | none => corrFindAll fuel cs

/-- `parse_srt` (subtitle_corrector.py lines 62–64): normalizes CR/CRLF and
returns all pattern matches (possibly the empty list — this variant never
raises). -/
def parse_srt (srt_content : String) : List Sub4 :=
  let c := pyReplace (pyReplace srt_content "\r\n" "\n") "\r" "\n"
  corrFindAll (c.data.length + 1) c.data

/-- The combined value `int(hours)*3600 + int(minutes)*60 + int(seconds) +
int(milliseconds)/1000` of `parse_time`. -/
def timeVal (hv mv sv msv : Int) : ℚ :=
  (hv : ℚ) * 3600 + (mv : ℚ) * 60 + (sv : ℚ) + (msv : ℚ) / 1000

/-- Second stage of `parse_time`: after splitting on `':'`, unpack
`seconds.split('.')` into exactly two parts (a Python unpacking error raises),
then convert the four fields with `int` and combine. -/
def parseTimeFrom (h m s : List Char) : Except Unit ℚ :=
  match splitOnChar '.' s with
  | [sec, ms] =>
    match pyInt h, pyInt m, pyInt sec, pyInt ms with
    | .ok hv, .ok mv, .ok sv, .ok msv => .ok (timeVal hv mv sv msv)
    | _, _, _, _ => .error ()
  | _ => .error ()

/-- `parse_time` (lines 66–77): replace `','` by `'.'`, split on `':'`;
three parts are hours/minutes/seconds, two parts get hours `'0'`, anything
else raises `ValueError`; the result is `h*3600 + m*60 + s + ms/1000`. -/
def parse_time (time_str : String) : Except Unit ℚ :=
  match splitOnChar ':' (pyReplaceChar ',' '.' time_str.data) with
  | [h, m, s] => parseTimeFrom h m s
  | [m, s] => parseTimeFrom ['0'] m s
  | _ => .error ()

/-- Python `str.isdigit` (ASCII digits; the inputs considered contain no
Unicode digit characters). -/
def pyIsDigitStr (s : String) : Bool := !s.data.isEmpty && s.data.all Char.isDigit

/-- `re.match(r'\d{1,2}:\d{2}:\d{2}[,\.]\d{3}', s)` with a two-digit hour:
anchored prefix match, trailing characters unconstrained. -/
def tsPrefix2 (cs : List Char) : Bool :=
  match cs with
  | a :: b :: ':' :: c :: d :: ':' :: e :: f :: g :: h :: i :: j :: _ =>
    a.isDigit && b.isDigit && c.isDigit && d.isDigit && e.isDigit && f.isDigit &&
      (g = ',' || g = '.') && h.isDigit && i.isDigit && j.isDigit
  | _ => false

/-- The one-digit-hour alternative of the same prefix pattern. -/
def tsPrefix1 (cs : List Char) : Bool :=
  match cs with
  | a :: ':' :: c :: d :: ':' :: e :: f :: g :: h :: i :: j :: _ =>
    a.isDigit && c.isDigit && d.isDigit && e.isDigit && f.isDigit &&
      (g = ',' || g = '.') && h.isDigit && i.isDigit && j.isDigit
  | _ => false

/-- `re.match(r'\d{1,2}:\d{2}:\d{2}[,\.]\d{3}', s)` as a Boolean. -/
def tsPrefixOk (s : String) : Bool := tsPrefix2 s.data || tsPrefix1 s.data

/-- The per-subtitle check loop of `validate_srt_format` (lines 159–165),
with the 1-based subtitle counter. -/
def validateLoop : List Sub4 → Nat → Bool × String
  | [], _ => (true, "")
  | sub :: rest, i =>
    if ¬ pyIsDigitStr (strStrip sub.1) then
      (false, "無效的字幕編號在第 " ++ toString i ++ " 個字幕: " ++ strStrip sub.1)
    else if ¬ (tsPrefixOk sub.2.1 && tsPrefixOk sub.2.2.1) then
      (false, "無效的時間戳格式在第 " ++ toString i ++ " 個字幕: " ++ sub.2.1 ++
        " --> " ++ sub.2.2.1)
    else if (strStrip sub.2.2.2).data.isEmpty then
      (false, "字幕 " ++ toString i ++ " 缺少內容")
    else validateLoop rest (i + 1)

/-- `validate_srt_format` (lines 154–167): parse; an empty parse is invalid;
otherwise every subtitle must have a digit index, prefix-valid start and end
timestamps and non-blank content. -/
def validate_srt_format (srt_content : String) : Bool × String :=
  let subtitles := parse_srt srt_content
  if subtitles.isEmpty then (false, "SRT 文件沒有包含任何字幕")
  else
    let r := validateLoop subtitles 1
    if r.1 then (true, "有效的 SRT 格式，包含 " ++ toString subtitles.length ++ " 個字幕")
    else r

/-- `correct_subtitle` (lines 79–124) with the OpenAI completion abstracted
as `client`: on success returns
`(index, start, end, original_content, corrected_content)` where both
contents are stripped; an exception from the call is re-raised. -/
def correct_subtitle (client : Sub4 → Except Unit String) (subtitle : Sub4) :
    Except Unit (String × String × String × String × String) :=
  match client subtitle with
  | .ok resp =>
    .ok (subtitle.1, subtitle.2.1, subtitle.2.2.1, strStrip subtitle.2.2.2, strStrip resp)
  | .error e => .error e

/-- The `as_completed` collection loop of `process_srt` (lines 131–148) over
the futures' completion order: each successful future appends
`(index, start, end, corrected)`, records a change when the text differs, and
reports progress `(i+1)/n`; the first failed future makes the whole function
return `None` (modelled `none`).  Returns the collected state and the
progress trace. -/
def processLoop (client : Sub4 → Except Unit String) (n : Nat) :
    List Sub4 → Nat →
      Option (List Sub4 × List (String × String × String)) × List ℚ
  | [], _ => (some ([], []), [])
  | s :: rest, i =>
    match correct_subtitle client s with
    | .error _ => (none, [])
    | .ok (idx, st, en, orig, corr) =>
      match processLoop client n rest (i + 1) with
      | (none, tr) => (none, ((i + 1 : ℚ) / (n : ℚ)) :: tr)
      | (some (cs, ch), tr) =>
        (some ((idx, st, en, corr) :: cs,
            (if orig ≠ corr then [(idx, orig, corr)] else []) ++ ch),
          ((i + 1 : ℚ) / (n : ℚ)) :: tr)

/-- The sort key `parse_time(x[1])` of a collected subtitle; only used where
every key parses. -/
def timeKey (x : Sub4) : ℚ :=
  match parse_time x.2.1 with
  | .ok v => v
  | .error _ => 0

/-- `corrected_subtitles.sort(key=lambda x: parse_time(x[1]))`: Python's
stable `list.sort`, modelled by the (equally stable) insertion sort; computing
a key raises iff some start time does not parse, and the exception escapes
`process_srt`. -/
def sortByStart (l : List Sub4) : Except Unit (List Sub4) :=
  if l.all fun x => isOkE (parse_time x.2.1) then
    .ok (List.insertionSort (fun a b => timeKey a ≤ timeKey b) l)
  else .error ()

/-- `process_srt` (lines 126–152), parameterised by the completion order
`order` of the per-subtitle futures (a permutation of the parsed subtitles):
collect results in completion order, then sort by parsed start time.
`(.ok none, _)` is the `return None, None` branch after a worker exception;
`(.error _, _)` is an exception escaping from the sort key. -/
def process_srt (client : Sub4 → Except Unit String) (srt_content : String)
    (order : List Sub4) :
    Except Unit (Option (List Sub4 × List (String × String × String))) × List ℚ :=
  let subtitles := parse_srt srt_content
  match processLoop client subtitles.length order 0 with
  | (none, tr) => (.ok none, tr)
  | (some (cs, ch), tr) =>
    match sortByStart cs with
    | .ok sorted => (.ok (some (sorted, ch)), tr)
    | .error e => (.error e, tr)

/-- `update_srt_with_edits` (lines 169–181): build the edits dict keyed by
subtitle index, substitute edited contents, renumber sequentially from 1 and
join the `"{i}\n{start} --> {end}\n{content}\n"` blocks with newlines. -/
def update_srt_with_edits (corrected_subtitles : List Sub4)
    (edited_changes : List (String × String × String)) : String :=
  let edits_dict := edited_changes.foldl (fun d e => pyDictSet d e.1 e.2.2) []
  let updated := corrected_subtitles.map fun s =>
    (s.1, s.2.1, s.2.2.1, (pyDictGet edits_dict s.1).getD s.2.2.2)
  String.intercalate "\n" ((updated.enumFrom 1).map fun ix =>
    toString ix.1 ++ "\n" ++ ix.2.2.1 ++ " --> " ++ ix.2.2.2.1 ++ "\n" ++ ix.2.2.2.2 ++ "\n")

end SubtitleCorrector

namespace SubtitleCorrector

/-- Full-length (anchored at both ends) match of
`\d{1,2}:\d{2}:\d{2}[,\.]\d{3}` — the shape `parse_time` is total on. -/
def fullTsMatch (s : String) : Bool :=
  match s.data with
  | [a, b, ':', c, d, ':', e, f, g, m1, m2, m3] =>
    a.isDigit && b.isDigit && c.isDigit && d.isDigit && e.isDigit && f.isDigit &&
      (g = ',' || g = '.') && m1.isDigit && m2.isDigit && m3.isDigit
  | [a, ':', c, d, ':', e, f, g, m1, m2, m3] =>
    a.isDigit && c.isDigit && d.isDigit && e.isDigit && f.isDigit &&
      (g = ',' || g = '.') && m1.isDigit && m2.isDigit && m3.isDigit
  | _ => false

end SubtitleCorrector

namespace SubtitleCorrector

/-- The record `process_srt` collects for one successfully corrected
subtitle: index, start and end unchanged, content replaced by the stripped
model response. -/
def corrOf (client : Sub4 → Except Unit String) (s : Sub4) : Sub4 :=
  match client s with
  | .ok resp => (s.1, s.2.1, s.2.2.1, strStrip resp)
  | .error _ => s

end SubtitleCorrector

/-! ### The retry variants — `translate_subtitle_chunk`
(`test_bilingual_srt_translator.py`) and `translate_subtitle`
(`[batch]test_bilingual_srt_translator.py`)

In both, the remote call plus its response postprocessing inside the `try`
body is abstracted as `attempt : Nat → Except Unit String` from the attempt
index; the second component of each result is the trace of `time.sleep`
delays executed by the loop. -/

/-- The `for attempt in range(max_retries)` loop of `translate_subtitle_chunk`
(lines 91–139), `max_retries = 3`: on success return the formatted
translation; on exception re-raise iff this was the last attempt, else retry
immediately — the loop body contains no `time.sleep`, so the delay trace is
always empty.  Fuel 0 is the fall-through `return text` of line 139, which is
unreachable because the last failed attempt re-raises. -/
def chunkRetryGo (attempt : Nat → Except Unit String) (text : String) :
    Nat → Nat → Except Unit String × List Nat
  | _, 0 => (.ok text, [])
  | k, fuel+1 =>
    match attempt k with
    | .ok s => (.ok s, [])
    | .error e =>
      if k = 3 - 1 then (.error e, []) else chunkRetryGo attempt text (k + 1) fuel

/-- `translate_subtitle_chunk` with the request construction before the loop
(which does not depend on the attempt) abstracted into `attempt`. -/
def translate_subtitle_chunk (attempt : Nat → Except Unit String) (text : String) :
    Except Unit String × List Nat :=
  chunkRetryGo attempt text 0 3

/-- The per-stanza padding loop of `translate_subtitle` (lines 56–65):
`for i in range(0, len(lines), 2)`, keeping a line only when it carries the
expected language label and substituting the visible error placeholder
otherwise. -/
def formatPairs (l1 l2 : String) : List String → List String
  | [] => []
  | [a] =>
    [if strStartsWith a (l1 ++ ":") then a else l1 ++ ": [翻譯錯誤]",
     l2 ++ ": [翻譯錯誤]"]
  | a :: b :: rest =>
    (if strStartsWith a (l1 ++ ":") then a else l1 ++ ": [翻譯錯誤]") ::
    (if strStartsWith b (l2 ++ ":") then b else l2 ++ ": [翻譯錯誤]") ::
    formatPairs l1 l2 rest

/-- Postprocessing of a successful response of `translate_subtitle`
(lines 54–65): strip, split into lines, pad per-stanza, re-join. -/
def formatTranslation (s l1 l2 : String) : String :=
  String.intercalate "\n" (formatPairs l1 l2 (pySplit (strStrip s) "\n"))

/-- The final-failure return value of `translate_subtitle` (line 70). -/
def errPlaceholder (l1 l2 : String) : String :=
  l1 ++ ": [翻譯錯誤]\n" ++ l2 ++ ": [翻譯錯誤]"

/-- The `for attempt in range(max_retries)` loop of `translate_subtitle`
(lines 26–71), `max_retries = 3`: on success return the formatted
translation; on exception return the visible error placeholder iff this was
the last attempt, else `time.sleep(2 ** attempt)` and retry.  Fuel 0 is the
fall-through after the loop, where Python would return `None` — unreachable,
since the last attempt always returns. -/
def subtitleRetryGo (attempt : Nat → Except Unit String) (l1 l2 : String) :
    Nat → Nat → Option String × List Nat
  | _, 0 => (none, [])
  | k, fuel+1 =>
    match attempt k with
    | .ok s => (some (formatTranslation s l1 l2), [])
    | .error _ =>
      if k = 3 - 1 then (some (errPlaceholder l1 l2), [])
      else
        let r := subtitleRetryGo attempt l1 l2 (k + 1) fuel
        (r.1, 2 ^ k :: r.2)

/-- `translate_subtitle` (the `text` argument is only ever passed to the
remote call, which `attempt` abstracts). -/
def translate_subtitle (attempt : Nat → Except Unit String) (text l1 l2 : String) :
    Option String × List Nat :=
  subtitleRetryGo attempt l1 l2 0 3


/-! ### Theorems -/

theorem chunkLoop_join (limit : Nat) :
    ∀ (blocks cur : List String) (size : Nat),
      (chunkLoop limit blocks cur size).flatten = cur ++ blocks := by
  intro blocks
  induction blocks with
  | nil =>
    intro cur size
    rw [chunkLoop]
    by_cases h : cur.isEmpty
    · rw [if_pos h]; simp [List.isEmpty_iff.mp h]
    · rw [if_neg h]; simp
  | cons b rest ih =>
    intro cur size
    rw [chunkLoop]
    by_cases h : size + b.length > limit ∧ ¬ cur.isEmpty
    · rw [if_pos h]; simp [ih]
    · rw [if_neg h]; simp [ih]

theorem chunkLoop_sizes (limit : Nat) :
    ∀ (blocks cur : List String) (size : Nat),
      size = sumLens cur →
      (2 ≤ cur.length → sumLens cur ≤ limit) →
      ∀ chunk ∈ chunkLoop limit blocks cur size,
        2 ≤ chunk.length → sumLens chunk ≤ limit := by
  intro blocks
  induction blocks with
  | nil =>
    intro cur size hsz hcur chunk hmem
    rw [chunkLoop] at hmem
    by_cases h : cur.isEmpty
    · rw [if_pos h] at hmem; simp at hmem
    · rw [if_neg h] at hmem
      simp at hmem
      subst hmem; exact hcur
  | cons b rest ih =>
    intro cur size hsz hcur chunk hmem
    rw [chunkLoop] at hmem
    by_cases h : size + b.length > limit ∧ ¬ cur.isEmpty
    · rw [if_pos h] at hmem
      rcases List.mem_cons.mp hmem with hmem | hmem
      · subst hmem; exact hcur
      · exact ih [b] b.length (by simp [sumLens]) (by intro h2; simp at h2) chunk hmem
    · rw [if_neg h] at hmem
      refine ih (cur ++ [b]) (size + b.length)
        (by simp [sumLens, hsz]) ?_ chunk hmem
      rcases Decidable.not_and_iff_or_not.mp h with h1 | h1
      · intro _
        have hle : size + b.length ≤ limit := Nat.le_of_not_lt h1
        simpa [sumLens, hsz] using hle
      · have hce : cur = [] := List.isEmpty_iff.mp (Decidable.not_not.mp h1)
        subst hce
        intro h2
        simp at h2

/-- Claim C4: for every input text and positive size limit, the concatenation
of the chunker's batches is exactly the original record (block) sequence — no
record lost, duplicated or reordered.  The second conjunct records that
`split_text_into_chunks` is exactly the blank-line join of those batches. -/
theorem split_text_into_chunks_coverage (text : String) (max_chunk_size : Nat)
    (hpos : 0 < max_chunk_size) :
    (chunkLoop max_chunk_size (srtBlocks text) [] 0).flatten = srtBlocks text ∧
    split_text_into_chunks text max_chunk_size =
      (chunkLoop max_chunk_size (srtBlocks text) [] 0).map (String.intercalate "\n\n") :=
  ⟨by simpa using chunkLoop_join max_chunk_size (srtBlocks text) [] 0, rfl⟩

theorem split_text_into_chunks_coverage_witness :
    0 < 3 ∧
      ((chunkLoop 3 (srtBlocks "aa\n\nbb") [] 0).flatten = srtBlocks "aa\n\nbb" ∧
        split_text_into_chunks "aa\n\nbb" 3 =
          (chunkLoop 3 (srtBlocks "aa\n\nbb") [] 0).map (String.intercalate "\n\n")) :=
  ⟨by decide, split_text_into_chunks_coverage "aa\n\nbb" 3 (by decide)⟩

/-- Claim C5 counterexample: with limit 10 the two records `"aaaaa"`,`"bbbbb"`
(each of length 5) are put into a single batch, because the chunker compares
only the sum of record lengths (10 ≤ 10) and never counts the two-character
`"\n\n"` separators; the serialized batch text has length 12 > 10 although the
batch holds two records, so the claimed size bound on serialized batch text
fails for a multi-record batch. -/
theorem split_text_into_chunks_size_cex :
    split_text_into_chunks "aaaaa\n\nbbbbb" 10 = ["aaaaa\n\nbbbbb"] ∧
    (srtBlocks "aaaaa\n\nbbbbb").length = 2 ∧
    10 < String.length "aaaaa\n\nbbbbb" := by
  refine ⟨by decide, by decide, by decide⟩

/-- Claim C5 (amended): every batch that contains at least two records has
total record text length at most the limit, where the total counts the
records' own characters only — the chunker does not count the two-character
blank-line separators, so the serialized batch string may exceed the limit by
up to `2·(k-1)` characters for a `k`-record batch; a batch whose single record
is oversized may exceed the limit arbitrarily. -/
theorem split_text_into_chunks_size (text : String) (max_chunk_size : Nat) :
    ∀ chunk ∈ chunkLoop max_chunk_size (srtBlocks text) [] 0,
      2 ≤ chunk.length → sumLens chunk ≤ max_chunk_size :=
  chunkLoop_sizes max_chunk_size (srtBlocks text) [] 0 rfl
    (by intro h; simp at h)

theorem split_text_into_chunks_size_witness :
    ["aa", "bb"] ∈ chunkLoop 4 (srtBlocks "aa\n\nbb") [] 0 ∧ 2 ≤ 2 ∧
      sumLens ["aa", "bb"] ≤ 4 :=
  ⟨by decide, by decide,
    split_text_into_chunks_size "aa\n\nbb" 4 ["aa", "bb"] (by decide) (by decide)⟩


/-- Claim C3: `SRTProcessor.parse_srt` raises its `ParseError` (`ValueError`)
exactly when zero blocks of the normalized input match the subtitle grammar;
whenever at least one block matches, it returns the non-empty match sequence
without raising, and every successful return is non-empty. -/
theorem parse_srt_error_iff_no_match (content : String) :
    ((∃ e, SRTProcessor.parse_srt content = .error e) ↔
      SRTProcessor.srtMatches content = []) ∧
    (SRTProcessor.srtMatches content ≠ [] →
      SRTProcessor.parse_srt content = .ok (SRTProcessor.srtMatches content)) ∧
    (∀ l, SRTProcessor.parse_srt content = .ok l → l ≠ []) := by
  unfold SRTProcessor.parse_srt
  by_cases h : (SRTProcessor.srtMatches content).isEmpty
  · rw [if_pos h]
    refine ⟨?_, ?_, ?_⟩
    · constructor
      · intro _; exact List.isEmpty_iff.mp h
      · intro _; exact ⟨_, rfl⟩
    · intro hne; exact absurd (List.isEmpty_iff.mp h) hne
    · intro l hl; cases hl
  · rw [if_neg h]
    refine ⟨?_, ?_, ?_⟩
    · constructor
      · rintro ⟨e, he⟩; cases he
      · intro he; exact absurd (List.isEmpty_iff.mpr he) h
    · intro _; rfl
    · intro l hl
      cases hl
      exact fun hn => h (List.isEmpty_iff.mpr hn)

theorem parse_srt_error_iff_no_match_witness :
    SRTProcessor.srtMatches "1\n00:00:01,000 --> 00:00:02,000\nHi" ≠ [] ∧
    SRTProcessor.parse_srt "1\n00:00:01,000 --> 00:00:02,000\nHi" =
      .ok (SRTProcessor.srtMatches "1\n00:00:01,000 --> 00:00:02,000\nHi") :=
  ⟨by decide,
    (parse_srt_error_iff_no_match "1\n00:00:01,000 --> 00:00:02,000\nHi").2.1 (by decide)⟩

example :
    SRTProcessor.srtMatches
        "1\n00:00:01,000 --> 00:00:02,000\nHello\n\n2\n00:00:03,000 --> 00:00:04,000\nWorld\n\n" =
      [("1", "00:00:01,000 --> 00:00:02,000", "Hello\n"),
       ("2", "00:00:03,000 --> 00:00:04,000", "World")] := by decide

example : SRTProcessor.srtMatches "not a subtitle file" = [] := by decide

namespace SRTTranslator

theorem batches20_flatten_of_le {α : Type} :
    ∀ (n : Nat) (l : List α), l.length ≤ n → (batches20 l).flatten = l := by
  intro n
  induction n with
  | zero =>
    intro l h
    have hl : l = [] := by
      cases l with
      | nil => rfl
      | cons x xs => simp at h
    subst hl
    simp [batches20]
  | succ n ih =>
    intro l h
    cases l with
    | nil => simp [batches20]
    | cons x xs =>
      rw [batches20]
      simp only [List.flatten_cons]
      rw [ih ((x :: xs).drop 20) (by simp at h ⊢; omega)]
      exact List.take_append_drop 20 (x :: xs)

theorem batches20_flatten {α : Type} (l : List α) : (batches20 l).flatten = l :=
  batches20_flatten_of_le l.length l le_rfl

theorem align_translations_length (ts : List (List (String × String)))
    (origs : List (String × String × String)) :
    (align_translations ts origs).length = origs.length := by
  simp [align_translations]
  omega

theorem translateLoop_shape (l1 l2 : String)
    (call : Nat → Nat → String → Except Unit String) (total : Nat) :
    ∀ (bl : List (List (String × String × String))) (bi : Nat),
      ∃ parts, (translateLoop l1 l2 call total bi bl).1 = parts.flatten ∧
        List.Forall₂ (fun p b => List.length p = List.length b) parts bl := by
  intro bl
  induction bl with
  | nil => intro bi; exact ⟨[], rfl, List.Forall₂.nil⟩
  | cons batch rest ih =>
    intro bi
    obtain ⟨parts, hp, hf⟩ := ih (bi + 1)
    rw [translateLoop]
    cases hcall : translate_batch (call bi) (batch.map fun s => s.2.2) with
    | ok translation =>
      refine ⟨(if (parse_translation translation l1 l2).length ≠ batch.length then
          align_translations (parse_translation translation l1 l2) batch
        else parse_translation translation l1 l2) :: parts, ?_, ?_⟩
      · simp only [hp]
        rfl
      · refine List.Forall₂.cons ?_ hf
        by_cases hlen : (parse_translation translation l1 l2).length ≠ batch.length
        · rw [if_pos hlen]; exact align_translations_length _ _
        · rw [if_neg hlen]; exact Decidable.not_not.mp hlen
    | error e =>
      refine ⟨(batch.map fun _ => errorItem l1 l2) :: parts, ?_, ?_⟩
      · simp only [hp]
        rfl
      · exact List.Forall₂.cons (by simp) hf

theorem flatten_length_eq_of_forall₂ {α β : Type} :
    ∀ {parts : List (List α)} {bl : List (List β)},
      List.Forall₂ (fun p b => List.length p = List.length b) parts bl →
      parts.flatten.length = bl.flatten.length := by
  intro parts bl h
  induction h with
  | nil => rfl
  | cons h _ ih => simp [h, ih]

end SRTTranslator

/-- Claim C1: for every input record sequence and every behaviour of the
translation client — exceptions included, and responses whose parsed stanza
count is smaller or larger than the batch — `translate_subtitles` returns one
result per input record, in input order: the result list is the in-order
concatenation of per-batch result blocks whose lengths match the corresponding
batches, and the batches concatenate back to the input, so
`len(results) = len(records)` and `results[i]` is derived from `records[i]`'s
batch position for every `i`. -/
theorem translate_subtitles_one_to_one (subtitles : List (String × String × String))
    (l1 l2 : String) (call : Nat → Nat → String → Except Unit String) :
    (SRTTranslator.translate_subtitles subtitles l1 l2 call).1.length = subtitles.length ∧
    (∃ parts, (SRTTranslator.translate_subtitles subtitles l1 l2 call).1 = parts.flatten ∧
      List.Forall₂ (fun p b => List.length p = List.length b) parts
        (SRTTranslator.batches20 subtitles)) ∧
    (SRTTranslator.batches20 subtitles).flatten = subtitles := by
  obtain ⟨parts, hp, hf⟩ :=
    SRTTranslator.translateLoop_shape l1 l2 call subtitles.length
      (SRTTranslator.batches20 subtitles) 0
  refine ⟨?_, ⟨parts, hp, hf⟩, SRTTranslator.batches20_flatten subtitles⟩
  rw [SRTTranslator.translate_subtitles, hp,
    SRTTranslator.flatten_length_eq_of_forall₂ hf,
    SRTTranslator.batches20_flatten subtitles]

namespace SRTTranslator

theorem pyDictGet_set_self (d : List (String × String)) (k v : String) :
    pyDictGet (pyDictSet d k v) k = some v := by
  induction d with
  | nil => simp [pyDictSet, pyDictGet]
  | cons kv rest ih =>
    obtain ⟨k', v'⟩ := kv
    rw [pyDictSet]
    by_cases h : k' = k
    · rw [if_pos h, pyDictGet, if_pos rfl]
    · rw [if_neg h, pyDictGet, if_neg h]
      exact ih

theorem pyDictGet_set_other (d : List (String × String)) (k v k' : String)
    (h : k ≠ k') :
    pyDictGet (pyDictSet d k v) k' = pyDictGet d k' := by
  induction d with
  | nil => simp [pyDictSet, pyDictGet, h]
  | cons kv rest ih =>
    obtain ⟨k0, v0⟩ := kv
    rw [pyDictSet]
    by_cases h0 : k0 = k
    · rw [if_pos h0, pyDictGet, if_neg h, pyDictGet, h0, if_neg h]
    · rw [if_neg h0, pyDictGet, pyDictGet]
      by_cases h1 : k0 = k'
      · rw [if_pos h1, if_pos h1]
      · rw [if_neg h1, if_neg h1]
        exact ih

theorem errorItem_get_lang1 (l1 l2 : String) :
    pyDictGet (errorItem l1 l2) l1 = some "[Translation Error]" := by
  rw [errorItem, pyDict3]
  by_cases h : l2 = l1
  · rw [h, pyDictGet_set_self]
  · rw [pyDictGet_set_other _ _ _ _ h, pyDictGet_set_self]

theorem errorItem_get_lang2 (l1 l2 : String) :
    pyDictGet (errorItem l1 l2) l2 = some "[Translation Error]" := by
  rw [errorItem, pyDict3, pyDictGet_set_self]

theorem translateLoop_failCall (l1 l2 : String) (total : Nat) :
    ∀ (bl : List (List (String × String × String))) (bi : Nat),
      translateLoop l1 l2 failCall total bi bl =
        (bl.flatten.map fun _ => errorItem l1 l2, []) := by
  intro bl
  induction bl with
  | nil => intro bi; rfl
  | cons batch rest ih =>
    intro bi
    rw [translateLoop, ih (bi + 1)]
    simp [translate_batch, retryStop3, failCall, Except.map]

end SRTTranslator

/-- Claim C2: with a translation client that raises on every call (so that
every `translate_batch` exhausts its internal retries), `translate_subtitles`
still returns — the embedding is a total function, mirroring that the `except`
branch swallows every batch failure and the loop continues with the next
batch — and the result has exactly one item per input record, each mapping
both requested languages (and the `'original'` key) to the visible
`'[Translation Error]'` placeholder. -/
theorem translate_subtitles_all_fail (subtitles : List (String × String × String))
    (l1 l2 : String) :
    (SRTTranslator.translate_subtitles subtitles l1 l2 SRTTranslator.failCall).1 =
      List.replicate subtitles.length (SRTTranslator.errorItem l1 l2) ∧
    pyDictGet (SRTTranslator.errorItem l1 l2) l1 = some "[Translation Error]" ∧
    pyDictGet (SRTTranslator.errorItem l1 l2) l2 = some "[Translation Error]" ∧
    pyDictGet (SRTTranslator.errorItem l1 l2) "original" = some "[Translation Error]" := by
  refine ⟨?_, SRTTranslator.errorItem_get_lang1 l1 l2,
    SRTTranslator.errorItem_get_lang2 l1 l2, ?_⟩
  · rw [SRTTranslator.translate_subtitles,
      SRTTranslator.translateLoop_failCall l1 l2 subtitles.length
        (SRTTranslator.batches20 subtitles) 0]
    simp [SRTTranslator.batches20_flatten, List.map_const']
  · rw [SRTTranslator.errorItem, pyDict3]
    by_cases h2 : l2 = "original"
    · rw [h2, SRTTranslator.pyDictGet_set_self]
    · rw [SRTTranslator.pyDictGet_set_other _ _ _ _ h2]
      by_cases h1 : l1 = "original"
      · rw [h1, SRTTranslator.pyDictGet_set_self]
      · rw [SRTTranslator.pyDictGet_set_other _ _ _ _ h1,
          SRTTranslator.pyDictGet_set_self]

namespace SRTTranslator

theorem progAt_nonneg (total bi : Nat) : 0 ≤ progAt total bi := by
  refine le_min (div_nonneg ?_ ?_) zero_le_one <;> positivity

theorem progAt_le_one (total bi : Nat) : progAt total bi ≤ 1 :=
  min_le_right _ _

theorem progAt_mono (total : Nat) {bi bj : Nat} (h : bi ≤ bj) :
    progAt total bi ≤ progAt total bj := by
  refine min_le_min ?_ le_rfl
  rw [div_eq_mul_inv, div_eq_mul_inv]
  refine mul_le_mul_of_nonneg_right ?_ (by positivity)
  have hb : (bi : ℚ) ≤ (bj : ℚ) := by exact_mod_cast h
  linarith

theorem translateLoop_progress (l1 l2 : String)
    (call : Nat → Nat → String → Except Unit String) (total : Nat) :
    ∀ (bl : List (List (String × String × String))) (bi : Nat),
      (translateLoop l1 l2 call total bi bl).2.Sorted (· ≤ ·) ∧
      ∀ p ∈ (translateLoop l1 l2 call total bi bl).2,
        progAt total bi ≤ p ∧ 0 ≤ p ∧ p ≤ 1 := by
  intro bl
  induction bl with
  | nil =>
    intro bi
    exact ⟨List.sorted_nil, by intro p hp; simp [translateLoop] at hp⟩
  | cons batch rest ih =>
    intro bi
    obtain ⟨ihs, ihb⟩ := ih (bi + 1)
    rw [translateLoop]
    cases hcall : translate_batch (call bi) (batch.map fun s => s.2.2) with
    | ok translation =>
      constructor
      · refine List.sorted_cons.mpr ⟨?_, ihs⟩
        intro p hp
        exact le_trans (progAt_mono total (Nat.le_succ bi)) (ihb p hp).1
      · intro p hp
        rcases List.mem_cons.mp hp with rfl | hp
        · exact ⟨le_rfl, progAt_nonneg _ _, progAt_le_one _ _⟩
        · obtain ⟨h1, h2, h3⟩ := ihb p hp
          exact ⟨le_trans (progAt_mono total (Nat.le_succ bi)) h1, h2, h3⟩
    | error e =>
      refine ⟨ihs, ?_⟩
      intro p hp
      obtain ⟨h1, h2, h3⟩ := ihb p hp
      exact ⟨le_trans (progAt_mono total (Nat.le_succ bi)) h1, h2, h3⟩

end SRTTranslator

example :
    SubtitleCorrector.parse_srt
        "5\n00:00:01,000 --> 00:00:02,000\nHello\n\n7\n00:00:03,000 --> 00:00:04,000\nWorld\n\n" =
      [("5", "00:00:01,000", "00:00:02,000", "Hello"),
       ("7", "00:00:03,000", "00:00:04,000", "World")] := by decide

example :
    SubtitleCorrector.update_srt_with_edits
        [("5", "00:00:01,000", "00:00:02,000", "Hello"),
         ("7", "00:00:03,000", "00:00:04,000", "World")] [] =
      "1\n00:00:01,000 --> 00:00:02,000\nHello\n\n2\n00:00:03,000 --> 00:00:04,000\nWorld\n" := by
  decide

example :
    SubtitleCorrector.parse_srt
        "1\n00:00:01,000 --> 00:00:02,000\nHello\n\n2\n00:00:03,000 --> 00:00:04,000\nWorld\n" =
      [("1", "00:00:01,000", "00:00:02,000", "Hello")] := by decide

example : SubtitleCorrector.parse_time "01:02:03,123" =
    .ok (SubtitleCorrector.timeVal 1 2 3 123) := rfl

example : SubtitleCorrector.parse_time "01:02:03,123:45" = .error () := rfl

/-! ### Character and splitting lemmas used for `parse_time` -/

theorem ne_of_digit {c x : Char} (h : c.isDigit = true) (hx : x.isDigit = false) :
    c ≠ x := fun e => by subst e; rw [h] at hx; cases hx

theorem pyIsSpace_digit {c : Char} (h : c.isDigit = true) : pyIsSpace c = false := by
  have h1 : c ≠ ' ' := ne_of_digit h (by decide)
  have h2 : c ≠ '\t' := ne_of_digit h (by decide)
  have h3 : c ≠ '\n' := ne_of_digit h (by decide)
  have h4 : c ≠ '\r' := ne_of_digit h (by decide)
  have h5 : c ≠ '\x0b' := ne_of_digit h (by decide)
  have h6 : c ≠ '\x0c' := ne_of_digit h (by decide)
  simp [pyIsSpace, h1, h2, h3, h4, h5, h6]

theorem dropWhile_eq_self_of {p : Char → Bool} {l : List Char}
    (h : ∀ x ∈ l, p x = false) : l.dropWhile p = l := by
  cases l with
  | nil => rfl
  | cons x xs => rw [List.dropWhile_cons, h x (by simp)]; simp

theorem pyStrip_eq_self {l : List Char} (h : ∀ x ∈ l, pyIsSpace x = false) :
    pyStrip l = l := by
  unfold pyStrip
  rw [dropWhile_eq_self_of h,
    dropWhile_eq_self_of (fun x hx => h x (List.mem_reverse.mp hx)), List.reverse_reverse]

theorem splitOnChar_ne_nil (c : Char) : ∀ (l : List Char), splitOnChar c l ≠ [] := by
  intro l
  cases l with
  | nil => simp [splitOnChar]
  | cons x xs =>
    rw [splitOnChar]
    rcases hxs : splitOnChar c xs with _ | ⟨r, rs⟩
    · simp
    · by_cases h : x = c <;> simp [h]

theorem splitOnChar_of_not_mem {c : Char} : ∀ {l : List Char},
    (∀ x ∈ l, x ≠ c) → splitOnChar c l = [l] := by
  intro l h
  induction l with
  | nil => rfl
  | cons x xs ih =>
    have ihh := ih fun y hy => h y (List.mem_cons_of_mem x hy)
    have hx : x ≠ c := h x (List.mem_cons_self x xs)
    rw [splitOnChar, ihh]
    simp [hx]

theorem splitOnChar_append {c : Char} : ∀ {xs : List Char} (ys : List Char),
    (∀ x ∈ xs, x ≠ c) → splitOnChar c (xs ++ c :: ys) = xs :: splitOnChar c ys := by
  intro xs
  induction xs with
  | nil =>
    intro ys _
    rcases hys : splitOnChar c ys with _ | ⟨r, rs⟩
    · exact absurd hys (splitOnChar_ne_nil c ys)
    · simp [splitOnChar, hys]
  | cons x xs ih =>
    intro ys h
    have hx : x ≠ c := h x (List.mem_cons_self x xs)
    have ihh := ih ys fun y hy => h y (List.mem_cons_of_mem x hy)
    rw [List.cons_append, splitOnChar, ihh]
    simp [hx]

theorem exceptOfDigits_ok (ds : List Char) (hne : ds ≠ [])
    (hd : ∀ x ∈ ds, x.isDigit = true) :
    exceptOfDigits ds = .ok (Int.ofNat (ds.foldl (fun a c => 10 * a + (c.toNat - 48)) 0)) := by
  rw [exceptOfDigits, pyDigitsVal, if_pos ⟨hne, List.all_eq_true.mpr hd⟩]
  rfl

theorem pyInt_digits (ds : List Char) (hne : ds ≠ []) (hd : ∀ x ∈ ds, x.isDigit = true) :
    pyInt ds = .ok (Int.ofNat (ds.foldl (fun a c => 10 * a + (c.toNat - 48)) 0)) := by
  have hstrip : pyStrip ds = ds :=
    pyStrip_eq_self fun x hx => pyIsSpace_digit (hd x hx)
  cases ds with
  | nil => exact absurd rfl hne
  | cons c rest =>
    have hc : c.isDigit = true := hd c (List.mem_cons_self c rest)
    have hplus : c ≠ '+' := ne_of_digit hc (by decide)
    have hminus : c ≠ '-' := ne_of_digit hc (by decide)
    simp only [pyInt, hstrip]
    rw [if_neg hplus, if_neg hminus]
    exact exceptOfDigits_ok _ (by simp) hd

theorem parseTimeFrom_ok (h m : List Char) (e f m1 m2 m3 : Char)
    (hh : h ≠ []) (hhd : ∀ x ∈ h, x.isDigit = true)
    (hm : m ≠ []) (hmd : ∀ x ∈ m, x.isDigit = true)
    (he : e.isDigit = true) (hf : f.isDigit = true)
    (h1 : m1.isDigit = true) (h2 : m2.isDigit = true) (h3 : m3.isDigit = true) :
    isOkE (SubtitleCorrector.parseTimeFrom h m [e, f, '.', m1, m2, m3]) = true := by
  have hef : ∀ x ∈ [e, f], x.isDigit = true := by
    intro x hx
    simp at hx
    rcases hx with rfl | rfl
    · exact he
    · exact hf
  have hms : ∀ x ∈ [m1, m2, m3], x.isDigit = true := by
    intro x hx
    simp at hx
    rcases hx with rfl | rfl | rfl
    · exact h1
    · exact h2
    · exact h3
  have hsp : splitOnChar '.' [e, f, '.', m1, m2, m3] = [[e, f], [m1, m2, m3]] := by
    have hsh : [e, f, '.', m1, m2, m3] = [e, f] ++ '.' :: [m1, m2, m3] := rfl
    rw [hsh,
      splitOnChar_append [m1, m2, m3]
        (fun x hx => ne_of_digit (hef x hx) (by decide)),
      splitOnChar_of_not_mem fun x hx => ne_of_digit (hms x hx) (by decide)]
  simp only [SubtitleCorrector.parseTimeFrom, hsp]
  rw [pyInt_digits h hh hhd, pyInt_digits m hm hmd,
    pyInt_digits [e, f] (by simp) hef, pyInt_digits [m1, m2, m3] (by simp) hms]
  rfl

/-- Claim C10 counterexample: `validate_srt_format` accepts this content —
its timestamp check `re.match(r'\d{1,2}:\d{2}:\d{2}[,\.]\d{3}', ...)` is a
prefix match — yet the start timestamp `parse_srt` extracts contains an extra
`:45`, and `parse_time` raises `ValueError` on it (four colon-separated
fields), so the sort key of `process_srt` is not total under the validator's
precondition. -/
theorem validate_but_parse_time_raises_cex :
    (SubtitleCorrector.validate_srt_format
        "1\n01:02:03,123:45 --> 01:02:04,000\nHello\n\n").1 = true ∧
    SubtitleCorrector.parse_srt "1\n01:02:03,123:45 --> 01:02:04,000\nHello\n\n" =
      [("1", "01:02:03,123:45", "01:02:04,000", "Hello")] ∧
    SubtitleCorrector.parse_time "01:02:03,123:45" = .error () :=
  ⟨by decide, by decide, rfl⟩

/-- Claim C10 (amended): the validator's timestamp check is only a prefix
match, so its acceptance does not make `parse_time` total on the extracted
start times (see the counterexample); what does hold is that `parse_time`
succeeds on every string that fully matches `\d{1,2}:\d{2}:\d{2}[,\.]\d{3}`
— in particular on every start time whose extracted text is exactly of that
shape. -/
theorem parse_time_total_on_full_match (s : String)
    (hfull : SubtitleCorrector.fullTsMatch s = true) :
    isOkE (SubtitleCorrector.parse_time s) = true := by
  rw [SubtitleCorrector.parse_time]
  unfold SubtitleCorrector.fullTsMatch at hfull
  split at hfull
  next a b c d e f g m1 m2 m3 heq =>
    simp only [Bool.and_eq_true, Bool.or_eq_true, decide_eq_true_eq, and_assoc] at hfull
    obtain ⟨ha, hb, hc, hd, he, hf, hg, h1, h2, h3⟩ := hfull
    have na : a ≠ ',' := ne_of_digit ha (by decide)
    have nb : b ≠ ',' := ne_of_digit hb (by decide)
    have nc : c ≠ ',' := ne_of_digit hc (by decide)
    have nd : d ≠ ',' := ne_of_digit hd (by decide)
    have nee : e ≠ ',' := ne_of_digit he (by decide)
    have nf : f ≠ ',' := ne_of_digit hf (by decide)
    have n1 : m1 ≠ ',' := ne_of_digit h1 (by decide)
    have n2 : m2 ≠ ',' := ne_of_digit h2 (by decide)
    have n3 : m3 ≠ ',' := ne_of_digit h3 (by decide)
    have hrep : pyReplaceChar ',' '.' s.data = [a, b, ':', c, d, ':', e, f, '.', m1, m2, m3] := by
      rw [heq]
      rcases hg with rfl | rfl <;>
        simp [pyReplaceChar, na, nb, nc, nd, nee, nf, n1, n2, n3]
    have hsplit : splitOnChar ':' (pyReplaceChar ',' '.' s.data) =
        [[a, b], [c, d], [e, f, '.', m1, m2, m3]] := by
      rw [hrep,
        show [a, b, ':', c, d, ':', e, f, '.', m1, m2, m3] =
          [a, b] ++ ':' :: ([c, d] ++ ':' :: [e, f, '.', m1, m2, m3]) from rfl,
        splitOnChar_append _ ?s1, splitOnChar_append _ ?s2,
        splitOnChar_of_not_mem ?s3]
      case s1 =>
        intro x hx
        simp at hx
        rcases hx with rfl | rfl
        · exact ne_of_digit ha (by decide)
        · exact ne_of_digit hb (by decide)
      case s2 =>
        intro x hx
        simp at hx
        rcases hx with rfl | rfl
        · exact ne_of_digit hc (by decide)
        · exact ne_of_digit hd (by decide)
      case s3 =>
        intro x hx
        simp at hx
        rcases hx with rfl | rfl | rfl | rfl | rfl | rfl
        · exact ne_of_digit he (by decide)
        · exact ne_of_digit hf (by decide)
        · decide
        · exact ne_of_digit h1 (by decide)
        · exact ne_of_digit h2 (by decide)
        · exact ne_of_digit h3 (by decide)
    rw [hsplit]
    refine parseTimeFrom_ok [a, b] [c, d] e f m1 m2 m3 (by simp) ?_ (by simp) ?_ he hf h1 h2 h3
    · intro x hx
      simp at hx
      rcases hx with rfl | rfl
      · exact ha
      · exact hb
    · intro x hx
      simp at hx
      rcases hx with rfl | rfl
      · exact hc
      · exact hd
  next a c d e f g m1 m2 m3 heq =>
    simp only [Bool.and_eq_true, Bool.or_eq_true, decide_eq_true_eq, and_assoc] at hfull
    obtain ⟨ha, hc, hd, he, hf, hg, h1, h2, h3⟩ := hfull
    have na : a ≠ ',' := ne_of_digit ha (by decide)
    have nc : c ≠ ',' := ne_of_digit hc (by decide)
    have nd : d ≠ ',' := ne_of_digit hd (by decide)
    have nee : e ≠ ',' := ne_of_digit he (by decide)
    have nf : f ≠ ',' := ne_of_digit hf (by decide)
    have n1 : m1 ≠ ',' := ne_of_digit h1 (by decide)
    have n2 : m2 ≠ ',' := ne_of_digit h2 (by decide)
    have n3 : m3 ≠ ',' := ne_of_digit h3 (by decide)
    have hrep : pyReplaceChar ',' '.' s.data = [a, ':', c, d, ':', e, f, '.', m1, m2, m3] := by
      rw [heq]
      rcases hg with rfl | rfl <;>
        simp [pyReplaceChar, na, nc, nd, nee, nf, n1, n2, n3]
    have hsplit : splitOnChar ':' (pyReplaceChar ',' '.' s.data) =
        [[a], [c, d], [e, f, '.', m1, m2, m3]] := by
      rw [hrep,
        show [a, ':', c, d, ':', e, f, '.', m1, m2, m3] =
          [a] ++ ':' :: ([c, d] ++ ':' :: [e, f, '.', m1, m2, m3]) from rfl,
        splitOnChar_append _ ?s1, splitOnChar_append _ ?s2,
        splitOnChar_of_not_mem ?s3]
      case s1 =>
        intro x hx
        simp at hx
        subst hx
        exact ne_of_digit ha (by decide)
      case s2 =>
        intro x hx
        simp at hx
        rcases hx with rfl | rfl
        · exact ne_of_digit hc (by decide)
        · exact ne_of_digit hd (by decide)
      case s3 =>
        intro x hx
        simp at hx
        rcases hx with rfl | rfl | rfl | rfl | rfl | rfl
        · exact ne_of_digit he (by decide)
        · exact ne_of_digit hf (by decide)
        · decide
        · exact ne_of_digit h1 (by decide)
        · exact ne_of_digit h2 (by decide)
        · exact ne_of_digit h3 (by decide)
    rw [hsplit]
    refine parseTimeFrom_ok [a] [c, d] e f m1 m2 m3 (by simp) ?_ (by simp) ?_ he hf h1 h2 h3
    · intro x hx
      simp at hx
      subst hx
      exact ha
    · intro x hx
      simp at hx
      rcases hx with rfl | rfl
      · exact hc
      · exact hd
  next =>
    cases hfull

theorem parse_time_total_on_full_match_witness :
    SubtitleCorrector.fullTsMatch "01:02:03,123" = true ∧
    isOkE (SubtitleCorrector.parse_time "01:02:03,123") = true :=
  ⟨by decide, parse_time_total_on_full_match "01:02:03,123" (by decide)⟩

/-- Claim C6 (code bug): the corrector's serializer renumbers from 1 but
terminates the final block with a single newline
(`"{i}\n{start} --> {end}\n{content}\n"` joined by `"\n"`), while its own
parser requires every block — the last included — to end in a blank line
(`\n\s*\n`).  Re-parsing the serialization of two parsed records therefore
returns only the first (renumbered) record: the round trip drops the final
record.  The last two conjuncts show the code contradicting itself: for a
valid single-record document the program's own validation of its own
serialized output fails. -/
theorem update_srt_reparse_drops_last :
    SubtitleCorrector.parse_srt
        "5\n00:00:01,000 --> 00:00:02,000\nHello\n\n7\n00:00:03,000 --> 00:00:04,000\nWorld\n\n" =
      [("5", "00:00:01,000", "00:00:02,000", "Hello"),
       ("7", "00:00:03,000", "00:00:04,000", "World")] ∧
    SubtitleCorrector.update_srt_with_edits
        [("5", "00:00:01,000", "00:00:02,000", "Hello"),
         ("7", "00:00:03,000", "00:00:04,000", "World")] [] =
      "1\n00:00:01,000 --> 00:00:02,000\nHello\n\n2\n00:00:03,000 --> 00:00:04,000\nWorld\n" ∧
    SubtitleCorrector.parse_srt
        "1\n00:00:01,000 --> 00:00:02,000\nHello\n\n2\n00:00:03,000 --> 00:00:04,000\nWorld\n" =
      [("1", "00:00:01,000", "00:00:02,000", "Hello")] ∧
    (SubtitleCorrector.validate_srt_format "1\n00:00:01,000 --> 00:00:02,000\nHello\n\n").1 =
      true ∧
    (SubtitleCorrector.validate_srt_format
        (SubtitleCorrector.update_srt_with_edits
          (SubtitleCorrector.parse_srt "1\n00:00:01,000 --> 00:00:02,000\nHello\n\n") [])).1 =
      false :=
  ⟨by decide, by decide, by decide, by decide, by decide⟩

/-- Claim C7 counterexample: with an always-failing remote call,
`translate_subtitle_chunk` performs its three attempts **with no delay
between them** — its `time.sleep` trace is empty, so "retries … with
exponential backoff" is false for this translation-client variant (contrast
`translate_subtitle`, whose trace is the exponential `[1, 2] = [2^0, 2^1]`).
Both surface failure rather than source text: the chunk variant re-raises and
the batch variant returns the constant error placeholder. -/
theorem translate_subtitle_chunk_no_backoff_cex :
    translate_subtitle_chunk (fun _ => .error ()) "Hello" = (.error (), []) ∧
    translate_subtitle (fun _ => .error ()) "Hello" "L1" "L2" =
      (some (errPlaceholder "L1" "L2"), [1, 2]) :=
  ⟨rfl, rfl⟩

/-- Claim C7 (amended): when the remote call fails on every attempt, each
translation-client variant retries up to a fixed budget of 3 attempts (the
hypotheses only constrain attempts 0–2, so later attempts are provably never
consulted) and then surfaces the failure to its caller:
`translate_subtitle_chunk` re-raises, `translate_subtitle` returns the
visible `[翻譯錯誤]` placeholder (a constant independent of the source text),
and `translate_batch` re-raises through tenacity.  `translate_subtitle`
sleeps the exponential schedule `2^0, 2^1` between attempts and
`translate_batch` uses tenacity's randomized exponential wait, but
`translate_subtitle_chunk` retries immediately (empty delay trace).  No
variant ever returns the untranslated source text presented as a translation
after the budget is exhausted. -/
theorem translation_client_retry_budget (text l1 l2 : String) (texts : List String)
    (a1 a2 : Nat → Except Unit String) (a3 : Nat → String → Except Unit String)
    (h1 : ∀ k < 3, a1 k = .error ()) (h2 : ∀ k < 3, a2 k = .error ())
    (h3 : ∀ k < 3, ∀ c, a3 k c = .error ()) :
    translate_subtitle_chunk a1 text = (.error (), []) ∧
    translate_subtitle a2 text l1 l2 = (some (errPlaceholder l1 l2), [1, 2]) ∧
    SRTTranslator.translate_batch a3 texts = .error () := by
  refine ⟨?_, ?_, ?_⟩
  · simp [translate_subtitle_chunk, chunkRetryGo, h1 0 (by norm_num),
      h1 1 (by norm_num), h1 2 (by norm_num)]
  · simp [translate_subtitle, subtitleRetryGo, h2 0 (by norm_num),
      h2 1 (by norm_num), h2 2 (by norm_num)]
  · simp [SRTTranslator.translate_batch, SRTTranslator.retryStop3,
      h3 0 (by norm_num), h3 1 (by norm_num), h3 2 (by norm_num), Except.map]

theorem translation_client_retry_budget_witness :
    translate_subtitle_chunk (fun _ => .error ()) "src" = (.error (), []) ∧
    translate_subtitle (fun _ => .error ()) "src" "A" "B" =
      (some (errPlaceholder "A" "B"), [1, 2]) ∧
    SRTTranslator.translate_batch (fun _ _ => .error ()) ["t1", "t2"] = .error () :=
  translation_client_retry_budget "src" "A" "B" ["t1", "t2"]
    (fun _ => .error ()) (fun _ => .error ()) (fun _ _ => .error ())
    (fun _ _ => rfl) (fun _ _ => rfl) (fun _ _ _ => rfl)

namespace SubtitleCorrector

theorem corrOf_start (client : Sub4 → Except Unit String) (s : Sub4) :
    (corrOf client s).2.1 = s.2.1 := by
  cases hc : client s <;> simp [corrOf, hc]

theorem timeKey_corrOf (client : Sub4 → Except Unit String) (s : Sub4) :
    timeKey (corrOf client s) = timeKey s := by
  unfold timeKey
  rw [corrOf_start]

end SubtitleCorrector

theorem processLoop_all_ok (client : SubtitleCorrector.Sub4 → Except Unit String) (n : Nat) :
    ∀ (order : List SubtitleCorrector.Sub4) (i : Nat),
      (∀ s ∈ order, isOkE (client s) = true) →
      ∃ ch tr, SubtitleCorrector.processLoop client n order i =
        (some (order.map (SubtitleCorrector.corrOf client), ch), tr) := by
  intro order
  induction order with
  | nil => intro i _; exact ⟨[], [], rfl⟩
  | cons s rest ih =>
    intro i hok
    obtain ⟨resp, hcl⟩ : ∃ r, client s = .ok r := by
      have hs := hok s (List.mem_cons_self s rest)
      cases hc : client s with
      | ok r => exact ⟨r, rfl⟩
      | error e => rw [hc] at hs; simp [isOkE] at hs
    obtain ⟨ch, tr, hih⟩ := ih (i + 1) fun x hx => hok x (List.mem_cons_of_mem s hx)
    have hcor : SubtitleCorrector.corrOf client s = (s.1, s.2.1, s.2.2.1, strStrip resp) := by
      simp [SubtitleCorrector.corrOf, hcl]
    refine ⟨(if strStrip s.2.2.2 ≠ strStrip resp
        then [(s.1, strStrip s.2.2.2, strStrip resp)] else []) ++ ch,
      ((i + 1 : ℚ) / (n : ℚ)) :: tr, ?_⟩
    simp only [SubtitleCorrector.processLoop, SubtitleCorrector.correct_subtitle, hcl, hih,
      List.map_cons, hcor]

theorem pairwise_and_of {α : Type} {R S : α → α → Prop} :
    ∀ {l : List α}, l.Pairwise R → l.Pairwise S →
      l.Pairwise fun a b => R a b ∧ S a b := by
  intro l
  induction l with
  | nil => intro _ _; exact List.Pairwise.nil
  | cons x xs ih =>
    intro h1 h2
    obtain ⟨r1, t1⟩ := List.pairwise_cons.mp h1
    obtain ⟨r2, t2⟩ := List.pairwise_cons.mp h2
    exact List.pairwise_cons.mpr ⟨fun y hy => ⟨r1 y hy, r2 y hy⟩, ih t1 t2⟩

theorem insertionSort_eq_of_pairwise_lt (cs target : List SubtitleCorrector.Sub4)
    (hperm : cs.Perm target)
    (hst : target.Pairwise fun a b =>
      SubtitleCorrector.timeKey a < SubtitleCorrector.timeKey b) :
    List.insertionSort
        (fun a b => SubtitleCorrector.timeKey a ≤ SubtitleCorrector.timeKey b) cs =
      target := by
  haveI : IsTotal SubtitleCorrector.Sub4
      (fun a b => SubtitleCorrector.timeKey a ≤ SubtitleCorrector.timeKey b) :=
    ⟨fun a b => le_total _ _⟩
  haveI : IsTrans SubtitleCorrector.Sub4
      (fun a b => SubtitleCorrector.timeKey a ≤ SubtitleCorrector.timeKey b) :=
    ⟨fun a b c hab hbc => le_trans hab hbc⟩
  have hperm2 := (List.perm_insertionSort
    (fun a b => SubtitleCorrector.timeKey a ≤ SubtitleCorrector.timeKey b) cs).trans hperm
  have hsorted := List.sorted_insertionSort
    (fun a b => SubtitleCorrector.timeKey a ≤ SubtitleCorrector.timeKey b) cs
  have hne_t : target.Pairwise fun a b =>
      SubtitleCorrector.timeKey a ≠ SubtitleCorrector.timeKey b :=
    hst.imp fun h => ne_of_lt h
  have hnd_t : (target.map SubtitleCorrector.timeKey).Nodup :=
    (List.pairwise_map).mpr hne_t
  have hnd_s : ((List.insertionSort
      (fun a b => SubtitleCorrector.timeKey a ≤ SubtitleCorrector.timeKey b) cs).map
        SubtitleCorrector.timeKey).Nodup :=
    ((hperm2.map SubtitleCorrector.timeKey).nodup_iff).mpr hnd_t
  have hne_s := (List.pairwise_map).mp hnd_s
  have hlt_s : (List.insertionSort
      (fun a b => SubtitleCorrector.timeKey a ≤ SubtitleCorrector.timeKey b) cs).Pairwise
        fun a b => SubtitleCorrector.timeKey a < SubtitleCorrector.timeKey b :=
    (pairwise_and_of hsorted hne_s).imp fun h => lt_of_le_of_ne h.1 h.2
  haveI : IsAntisymm SubtitleCorrector.Sub4
      (fun a b => SubtitleCorrector.timeKey a < SubtitleCorrector.timeKey b) :=
    ⟨fun a b hab hba => absurd (lt_trans hab hba) (lt_irrefl _)⟩
  exact List.eq_of_perm_of_sorted hperm2 hlt_s hst

/-- Claim C9 (amended): the bounded-parallel corrector collects its workers'
results in completion order and then **sorts them by parsed start time**
(stably); so, whenever every worker call succeeds, every start time parses,
and the input records' start times are strictly increasing, the corrected
subtitles come back in the original record order for every completion order
of the futures — in particular any two completion orders yield the same
output.  Without those provisos the original claim fails: the output is
start-time order rather than input order, and equal start times are tie-broken
by completion order (see the counterexample). -/
theorem process_srt_original_order (client : SubtitleCorrector.Sub4 → Except Unit String)
    (srt_content : String) (order : List SubtitleCorrector.Sub4)
    (hperm : order.Perm (SubtitleCorrector.parse_srt srt_content))
    (hok : ∀ s ∈ SubtitleCorrector.parse_srt srt_content, isOkE (client s) = true)
    (htime : ∀ s ∈ SubtitleCorrector.parse_srt srt_content,
      isOkE (SubtitleCorrector.parse_time s.2.1) = true)
    (hst : (SubtitleCorrector.parse_srt srt_content).Pairwise
      fun a b => SubtitleCorrector.timeKey a < SubtitleCorrector.timeKey b) :
    ∃ ch, (SubtitleCorrector.process_srt client srt_content order).1 =
      .ok (some ((SubtitleCorrector.parse_srt srt_content).map
        (SubtitleCorrector.corrOf client), ch)) := by
  obtain ⟨ch, tr, hloop⟩ :=
    processLoop_all_ok client (SubtitleCorrector.parse_srt srt_content).length order 0
      fun s hs => hok s (hperm.mem_iff.mp hs)
  have hall : ((order.map (SubtitleCorrector.corrOf client)).all
      fun x => isOkE (SubtitleCorrector.parse_time x.2.1)) = true := by
    refine List.all_eq_true.mpr ?_
    intro x hx
    obtain ⟨s, hs, rfl⟩ := List.mem_map.mp hx
    rw [SubtitleCorrector.corrOf_start]
    exact htime s (hperm.mem_iff.mp hs)
  have hsort : SubtitleCorrector.sortByStart (order.map (SubtitleCorrector.corrOf client)) =
      .ok ((SubtitleCorrector.parse_srt srt_content).map
        (SubtitleCorrector.corrOf client)) := by
    rw [SubtitleCorrector.sortByStart, if_pos hall,
      insertionSort_eq_of_pairwise_lt _ _ (hperm.map _) ?_]
    refine (List.pairwise_map).mpr ?_
    refine hst.imp ?_
    intro a b h
    rw [SubtitleCorrector.timeKey_corrOf, SubtitleCorrector.timeKey_corrOf]
    exact h
  refine ⟨ch, ?_⟩
  simp only [SubtitleCorrector.process_srt, hloop, hsort]

/-- Claim C9 counterexample: with the identity completion order (futures
complete in submission order) and a worker that returns each content
unchanged, `process_srt` on a document whose records are **not** in
start-time order returns the corrected subtitles sorted by parsed start time
— `[record 2, record 1]` — not in the original record order
`[record 1, record 2]`; the ordering guarantee as claimed is false on the
code. -/
theorem process_srt_not_original_order_cex :
    SubtitleCorrector.parse_srt
        "1\n00:00:10,000 --> 00:00:11,000\nA\n\n2\n00:00:05,000 --> 00:00:06,000\nB\n\n" =
      [("1", "00:00:10,000", "00:00:11,000", "A"),
       ("2", "00:00:05,000", "00:00:06,000", "B")] ∧
    (SubtitleCorrector.process_srt (fun s => .ok s.2.2.2)
        "1\n00:00:10,000 --> 00:00:11,000\nA\n\n2\n00:00:05,000 --> 00:00:06,000\nB\n\n"
        [("1", "00:00:10,000", "00:00:11,000", "A"),
         ("2", "00:00:05,000", "00:00:06,000", "B")]).1 =
      .ok (some ([("2", "00:00:05,000", "00:00:06,000", "B"),
                  ("1", "00:00:10,000", "00:00:11,000", "A")], [])) := by
  constructor
  · decide
  · have hk : ¬ (SubtitleCorrector.timeKey ("1", "00:00:10,000", "00:00:11,000", "A") ≤
        SubtitleCorrector.timeKey ("2", "00:00:05,000", "00:00:06,000", "B")) := by
      rw [show SubtitleCorrector.timeKey ("1", "00:00:10,000", "00:00:11,000", "A") =
          SubtitleCorrector.timeVal 0 0 10 0 from rfl,
        show SubtitleCorrector.timeKey ("2", "00:00:05,000", "00:00:06,000", "B") =
          SubtitleCorrector.timeVal 0 0 5 0 from rfl]
      norm_num [SubtitleCorrector.timeVal]
    have hsort : SubtitleCorrector.sortByStart
        [("1", "00:00:10,000", "00:00:11,000", "A"),
         ("2", "00:00:05,000", "00:00:06,000", "B")] =
        .ok [("2", "00:00:05,000", "00:00:06,000", "B"),
             ("1", "00:00:10,000", "00:00:11,000", "A")] := by
      rw [SubtitleCorrector.sortByStart, if_pos (by rfl)]
      simp [List.insertionSort, List.orderedInsert, hk]
    have hlen : (SubtitleCorrector.parse_srt
        "1\n00:00:10,000 --> 00:00:11,000\nA\n\n2\n00:00:05,000 --> 00:00:06,000\nB\n\n").length =
        2 := by decide
    rcases hlp : SubtitleCorrector.processLoop (fun s => .ok s.2.2.2) 2
        [("1", "00:00:10,000", "00:00:11,000", "A"),
         ("2", "00:00:05,000", "00:00:06,000", "B")] 0 with ⟨res, tr⟩
    have hres : res = some ([("1", "00:00:10,000", "00:00:11,000", "A"),
        ("2", "00:00:05,000", "00:00:06,000", "B")], []) := by
      have h1 : (SubtitleCorrector.processLoop (fun s => .ok s.2.2.2) 2
          [("1", "00:00:10,000", "00:00:11,000", "A"),
           ("2", "00:00:05,000", "00:00:06,000", "B")] 0).1 =
          some ([("1", "00:00:10,000", "00:00:11,000", "A"),
            ("2", "00:00:05,000", "00:00:06,000", "B")], []) := rfl
      rw [hlp] at h1
      exact h1
    subst hres
    simp only [SubtitleCorrector.process_srt, hlen, hlp, hsort]

theorem process_srt_original_order_witness :
    ∃ ch, (SubtitleCorrector.process_srt (fun s => .ok s.2.2.2)
        "1\n00:00:05,000 --> 00:00:06,000\nA\n\n2\n00:00:10,000 --> 00:00:11,000\nB\n\n"
        [("2", "00:00:10,000", "00:00:11,000", "B"),
         ("1", "00:00:05,000", "00:00:06,000", "A")]).1 =
      .ok (some ((SubtitleCorrector.parse_srt
          "1\n00:00:05,000 --> 00:00:06,000\nA\n\n2\n00:00:10,000 --> 00:00:11,000\nB\n\n").map
        (SubtitleCorrector.corrOf fun s => .ok s.2.2.2), ch)) := by
  refine process_srt_original_order (fun s => .ok s.2.2.2) _ _ ?_ (by decide) (by decide) ?_
  · rw [show SubtitleCorrector.parse_srt
        "1\n00:00:05,000 --> 00:00:06,000\nA\n\n2\n00:00:10,000 --> 00:00:11,000\nB\n\n" =
        [("1", "00:00:05,000", "00:00:06,000", "A"),
         ("2", "00:00:10,000", "00:00:11,000", "B")] from by decide]
    exact List.Perm.swap _ _ _
  · rw [show SubtitleCorrector.parse_srt
        "1\n00:00:05,000 --> 00:00:06,000\nA\n\n2\n00:00:10,000 --> 00:00:11,000\nB\n\n" =
        [("1", "00:00:05,000", "00:00:06,000", "A"),
         ("2", "00:00:10,000", "00:00:11,000", "B")] from by decide]
    refine List.pairwise_cons.mpr ⟨?_, List.pairwise_singleton _ _⟩
    intro y hy
    simp only [List.mem_singleton] at hy
    subst hy
    rw [show SubtitleCorrector.timeKey ("1", "00:00:05,000", "00:00:06,000", "A") =
        SubtitleCorrector.timeVal 0 0 5 0 from rfl,
      show SubtitleCorrector.timeKey ("2", "00:00:10,000", "00:00:11,000", "B") =
        SubtitleCorrector.timeVal 0 0 10 0 from rfl]
    norm_num [SubtitleCorrector.timeVal]

theorem processLoop_trace_cons (client : SubtitleCorrector.Sub4 → Except Unit String)
    (n : Nat) (s : SubtitleCorrector.Sub4) (rest : List SubtitleCorrector.Sub4) (i : Nat) :
    (SubtitleCorrector.processLoop client n (s :: rest) i).2 =
      match SubtitleCorrector.correct_subtitle client s with
      | .error _ => []
      | .ok _ => ((i + 1 : ℚ)) / (n : ℚ) ::
          (SubtitleCorrector.processLoop client n rest (i + 1)).2 := by
  rw [SubtitleCorrector.processLoop]
  cases SubtitleCorrector.correct_subtitle client s with
  | error e => rfl
  | ok val =>
    obtain ⟨idx, st, en, orig, corr⟩ := val
    rcases hrec : SubtitleCorrector.processLoop client n rest (i + 1) with ⟨res, tr⟩
    cases res <;> rfl

theorem processLoop_progress (client : SubtitleCorrector.Sub4 → Except Unit String) (n : Nat) :
    ∀ (order : List SubtitleCorrector.Sub4) (i : Nat), i + order.length ≤ n →
      (SubtitleCorrector.processLoop client n order i).2.Sorted (· ≤ ·) ∧
      ∀ p ∈ (SubtitleCorrector.processLoop client n order i).2,
        0 ≤ p ∧ p ≤ 1 ∧ ((i : ℚ) + 1) / (n : ℚ) ≤ p := by
  intro order
  induction order with
  | nil =>
    intro i _
    exact ⟨List.sorted_nil, by intro p hp; simp [SubtitleCorrector.processLoop] at hp⟩
  | cons s rest ih =>
    intro i hlen
    have hn1 : 1 ≤ n := by simp at hlen; omega
    have hn : (0 : ℚ) < (n : ℚ) := by exact_mod_cast hn1
    obtain ⟨ihs, ihb⟩ := ih (i + 1) (by simp at hlen ⊢; omega)
    rw [processLoop_trace_cons]
    cases hcs : SubtitleCorrector.correct_subtitle client s with
    | error e => exact ⟨List.sorted_nil, by intro p hp; simp at hp⟩
    | ok val =>
      have hstep : ((i : ℚ) + 1) / (n : ℚ) ≤ (((i + 1 : ℕ) : ℚ) + 1) / (n : ℚ) := by
        rw [div_eq_mul_inv, div_eq_mul_inv]
        refine mul_le_mul_of_nonneg_right ?_ (by positivity)
        push_cast
        linarith
      constructor
      · refine List.sorted_cons.mpr ⟨?_, ihs⟩
        intro p hp
        exact le_trans hstep (ihb p hp).2.2
      · intro p hp
        rcases List.mem_cons.mp hp with rfl | hp
        · refine ⟨by positivity, ?_, le_rfl⟩
          rw [div_le_one hn]
          have hin : i + 1 ≤ n := by simp at hlen; omega
          exact_mod_cast hin
        · obtain ⟨b1, b2, b3⟩ := ihb p hp
          exact ⟨b1, b2, le_trans hstep b3⟩

theorem process_srt_trace (client : SubtitleCorrector.Sub4 → Except Unit String)
    (content : String) (order : List SubtitleCorrector.Sub4) :
    (SubtitleCorrector.process_srt client content order).2 =
      (SubtitleCorrector.processLoop client
        (SubtitleCorrector.parse_srt content).length order 0).2 := by
  simp only [SubtitleCorrector.process_srt]
  rcases hlp : SubtitleCorrector.processLoop client
      (SubtitleCorrector.parse_srt content).length order 0 with ⟨res, tr⟩
  cases res with
  | none => rfl
  | some val =>
    obtain ⟨cs, ch⟩ := val
    rcases hss : SubtitleCorrector.sortByStart cs with e | sorted <;> simp [hss]

/-- Claim C8: across every run, the values passed to the progress callback
are monotonically non-decreasing and lie in `[0, 1]`, regardless of batch
failures or of the completion order of the workers.  First conjunct: the
batched translator, whose callback trace is
`min((i + BATCH_SIZE)/total, 1.0)` over the successful batches (failed
batches report nothing, which preserves monotonicity).  Second conjunct: the
bounded-parallel corrector, whose trace is `(i+1)/len(subtitles)` over
completed futures in completion order (a prefix, if a worker raises). -/
theorem progress_monotone_unit :
    (∀ (subtitles : List (String × String × String)) (l1 l2 : String)
        (call : Nat → Nat → String → Except Unit String),
      (SRTTranslator.translate_subtitles subtitles l1 l2 call).2.Sorted (· ≤ ·) ∧
      ∀ p ∈ (SRTTranslator.translate_subtitles subtitles l1 l2 call).2,
        0 ≤ p ∧ p ≤ 1) ∧
    (∀ (client : SubtitleCorrector.Sub4 → Except Unit String) (content : String)
        (order : List SubtitleCorrector.Sub4),
      order.Perm (SubtitleCorrector.parse_srt content) →
      (SubtitleCorrector.process_srt client content order).2.Sorted (· ≤ ·) ∧
      ∀ p ∈ (SubtitleCorrector.process_srt client content order).2,
        0 ≤ p ∧ p ≤ 1) := by
  constructor
  · intro subtitles l1 l2 call
    obtain ⟨hs, hb⟩ := SRTTranslator.translateLoop_progress l1 l2 call subtitles.length
      (SRTTranslator.batches20 subtitles) 0
    exact ⟨hs, fun p hp => ⟨(hb p hp).2.1, (hb p hp).2.2⟩⟩
  · intro client content order hperm
    have hlen : order.length = (SubtitleCorrector.parse_srt content).length :=
      hperm.length_eq
    obtain ⟨hs, hb⟩ := processLoop_progress client
      (SubtitleCorrector.parse_srt content).length order 0 (by omega)
    rw [process_srt_trace]
    exact ⟨hs, fun p hp => ⟨(hb p hp).1, (hb p hp).2.1⟩⟩

theorem progress_monotone_unit_witness :
    ((SRTTranslator.translate_subtitles [("1", "00:00:01,000 --> 00:00:02,000", "Hi")]
        "L1" "L2" SRTTranslator.failCall).2.Sorted (· ≤ ·) ∧
      ∀ p ∈ (SRTTranslator.translate_subtitles [("1", "00:00:01,000 --> 00:00:02,000", "Hi")]
        "L1" "L2" SRTTranslator.failCall).2, 0 ≤ p ∧ p ≤ 1) ∧
    ((SubtitleCorrector.process_srt (fun s => .ok s.2.2.2)
        "1\n00:00:01,000 --> 00:00:02,000\nHi\n\n"
        (SubtitleCorrector.parse_srt "1\n00:00:01,000 --> 00:00:02,000\nHi\n\n")).2.Sorted
          (· ≤ ·) ∧
      ∀ p ∈ (SubtitleCorrector.process_srt (fun s => .ok s.2.2.2)
        "1\n00:00:01,000 --> 00:00:02,000\nHi\n\n"
        (SubtitleCorrector.parse_srt "1\n00:00:01,000 --> 00:00:02,000\nHi\n\n")).2,
        0 ≤ p ∧ p ≤ 1) :=
  ⟨progress_monotone_unit.1 [("1", "00:00:01,000 --> 00:00:02,000", "Hi")] "L1" "L2"
      SRTTranslator.failCall,
    progress_monotone_unit.2 (fun s => .ok s.2.2.2)
      "1\n00:00:01,000 --> 00:00:02,000\nHi\n\n"
      (SubtitleCorrector.parse_srt "1\n00:00:01,000 --> 00:00:02,000\nHi\n\n")
      (List.Perm.refl _)⟩